import Mathlib

/-!
Shallow embedding of the carRec recommendation pipeline
(`src/analyzer.py`, `src/llm_service.py`, with the listing shape taken from
`src/database.py`), together with theorems settling the frozen claims about
its specification.

Conventions of the embedding:
* A listing is the dictionary produced by `Database.get_cars`: every column
  of the `cars` table is present as a key, a SQL NULL becoming Python
  `None`, modelled as `Option`.  The `rank_score` key written by
  `CarAnalyzer._rank_cars` is modelled as an extra `Option Int` field,
  `none` meaning "key absent".
* Python strings are modelled through their character lists; `needle in
  hay` and `hay.find(needle)` are modelled by an explicit first-occurrence
  search; `text[p:p+200]` is `(text.drop p).take 200`.
* Python's float arithmetic on scores is exact here: every score has the
  form `-position/1000 + 10·k`, a rational with fixed denominator `1000`,
  so scores are represented by their numerator over that fixed
  denominator — the integer `-position + 10000·k` ("milliscore").  This
  is an order-isomorphic exact representation: comparisons, equalities
  and zero-ness of scores are preserved, which is all the sort (and every
  claim) consumes.
* Python's stable `sorted(xs, key=...)` is modelled by decorating each
  element with its position and running an insertion sort under the strict
  total order "key before, position as tie-break"; for the unique strict
  total order this yields precisely the stable sort result.
* A Python exception escaping a piece of code is modelled by `Except`:
  `sorted` raises `TypeError` as soon as a `None` price participates in a
  comparison, which happens exactly when the list has at least two
  elements and one of them has a `None` price.
* The completion capability and the database are oracles passed as
  function arguments; the ranking-side completion call can raise (an
  uncaught KeyError on a malformed choices entry), so its oracle is
  `Except`-valued, and so are the `LLMService` entry points.
-/

deriving instance DecidableEq for Except

namespace CarRec

/-- A car listing as returned by `Database.get_cars` (`src/database.py`):
a dict with one key per column of the `cars` table, `NULL` mapped to
`None`, plus the `rank_score` key that `_rank_cars` may add
(`none` = key absent). -/
structure Listing where
  id : Int
  source : String
  year : Option Int := none
  make : Option String := none
  model : Option String := none
  price : Option Int := none
  url : Option String := none
  details : List (String × String) := []
  scrapedAt : Option String := none
  analysis : Option String := none
  analysisTimestamp : Option String := none
  rankScore : Option Int := none
deriving DecidableEq, Repr

/-- Preferences / criteria: a flat string-keyed mapping (a decoded JSON
object). -/
abbrev Prefs := List (String × String)

/-- Python truthiness of an optional string (`car.get('analysis')` used in
a boolean position): `None` and `""` are falsy. -/
def pyTruthyStr : Option String → Bool
  | none => false
  | some s => !(s == "")

/-- Python `str(...)` of an optional int as it appears inside an f-string:
`None` prints as `"None"`. -/
def pyStrOfOptInt : Option Int → String
  | none => "None"
  | some n => toString n

/-- Python `str(...)` of an optional string inside an f-string. -/
def pyStrOfOptStr : Option String → String
  | none => "None"
  | some s => s

/-- The identifier `f"{car.get('year')} {car.get('make')} {car.get('model')}"`
built in `_rank_cars` (`src/analyzer.py` line 116). -/
def carIdentifier (c : Listing) : String :=
  pyStrOfOptInt c.year ++ " " ++ pyStrOfOptStr c.make ++ " " ++ pyStrOfOptStr c.model

/-- First offset at which `needle` occurs in `hay`
(Python `hay.find(needle)`, `none` for `-1`). -/
def findSub (needle : List Char) : List Char → Option Nat
  | [] => if needle.isPrefixOf ([] : List Char) then some 0 else none
  | c :: rest =>
    if needle.isPrefixOf (c :: rest) then some 0
    else (findSub needle rest).map (· + 1)

/-- Python `needle in hay` for strings. -/
def containsSub (needle hay : List Char) : Bool :=
  (findSub needle hay).isSome

/-- The positive sentiment keywords of `_rank_cars` (line 127). -/
def positiveWords : List String :=
  ["recommend", "excellent", "good", "best", "top", "value"]

/-- The negative sentiment keywords of `_rank_cars` (line 133). -/
def negativeWords : List String :=
  ["avoid", "poor", "worst", "concern", "issue", "problem"]

/-- The score `_rank_cars` computes for one car from the ranking text
(lines 116-136), times `1000` (exact, see the header): `0` if the
identifier does not occur; otherwise `-position/1000` (here `-position`),
plus `10` (here `10000`) for each positive keyword that occurs in the
200-character window starting at the identifier's first occurrence, minus
`10` (here `10000`) for each negative keyword that occurs there.
(Python's `word in window` is containment, so one keyword contributes at
most once however often it occurs.) -/
def heuristicScore (text : List Char) (c : Listing) : Int :=
  match findSub (carIdentifier c).data text with
  | none => 0
  | some p =>
    let window := (text.drop p).take 200
    let pos : Int := (positiveWords.filter (fun w => containsSub w.data window)).length
    let neg : Int := (negativeWords.filter (fun w => containsSub w.data window)).length
    let posBonus : Int := -(p : Int)
    posBonus + 10000 * pos - 10000 * neg

/-! ### Stable sorting, as Python's `sorted` does it -/

/-- Decorate a list with positions starting at `n`. -/
def withIdx (n : Nat) : List α → List (Nat × α)
  | [] => []
  | x :: xs => (n, x) :: withIdx (n + 1) xs

/-- Insert `x` in front of the first element it is strictly before. -/
def insertOrd (lt : α → α → Bool) (x : α) : List α → List α
  | [] => [x]
  | y :: ys => if lt x y then x :: y :: ys else y :: insertOrd lt x ys

/-- Insertion sort by a strict order given as a boolean relation. -/
def isort (lt : α → α → Bool) : List α → List α
  | [] => []
  | x :: xs => insertOrd lt x (isort lt xs)

/-- Python's stable `sorted(xs, key=...)`: `ltK a b` means "`a`'s key is
strictly before `b`'s", `eqK` is key equality; elements are decorated with
their positions, sorted under the induced strict total order (position
breaks key ties, which is exactly stability), and stripped again. -/
def pySorted (ltK eqK : α → α → Bool) (xs : List α) : List α :=
  (isort
      (fun p q => ltK p.2 q.2 || (eqK p.2 q.2 && decide (p.1 < q.1)))
      (withIdx 0 xs)).map Prod.snd

/-- Key order for `sorted(analyzed_cars, key=lambda x: x.get('rank_score', 0),
reverse=True)` (line 141): descending in the stored (milli-)rank score,
missing key read as `0`. -/
def rankLtB (a b : Listing) : Bool :=
  decide (b.rankScore.getD 0 < a.rankScore.getD 0)

/-- Key equality companion of `rankLtB`. -/
def rankEqB (a b : Listing) : Bool :=
  decide (a.rankScore.getD 0 = b.rankScore.getD 0)

/-- Key order for `sorted(xs, key=lambda x: x.get('price', float('inf')))`
when every price is a known integer. -/
def priceLtB (a b : Listing) : Bool :=
  decide (a.price.getD 0 < b.price.getD 0)

/-- Key equality companion of `priceLtB`. -/
def priceEqB (a b : Listing) : Bool :=
  decide (a.price.getD 0 = b.price.getD 0)

/-- Python `sorted(xs, key=lambda x: x.get('price', float('inf')))` applied
to DB-shaped dicts.  The `price` key is always present (it is a column of
the `cars` table), so the `float('inf')` default never fires: an unknown
price is the value `None`, and any comparison involving `None` raises
`TypeError`.  With at least two elements, every element takes part in at
least one comparison, so the call raises exactly when the list has length
at least 2 and contains a `None` price; otherwise it returns the stable
ascending sort by the integer prices. -/
def sortByPriceExc (xs : List Listing) : Except Unit (List Listing) :=
  if xs.length ≤ 1 then .ok xs
  else if xs.any (fun c => c.price.isNone) then .error ()
  else .ok (pySorted priceLtB priceEqB xs)

/-! ### The Ranking Stage: `CarAnalyzer._rank_cars` -/

/-- The analyzed listings of a batch:
`[car for car in cars if car.get('analysis')]` (line 99). -/
def analyzedOf (cars : List Listing) : List Listing :=
  cars.filter (fun c => pyTruthyStr c.analysis)

/-- Setting `car['rank_score'] = score` (line 138) for the ranking text
`text`. -/
def setScore (text : List Char) (c : Listing) : Listing :=
  { c with rankScore := some (heuristicScore text c) }

/-- The `try:` block of `_rank_cars` (lines 97-146).  The completion
capability `llmR` models `self.llm_service.rank_cars`: it either returns
the ranking text or raises — `rank_cars` can raise, e.g. the uncaught
KeyError of `generate_completion` on a 200 body whose non-empty choices
array is malformed (`src/llm_service.py` line 79).  A raising call makes
the exception leave the block before any listing is touched.  Returns the
pair of the outcome (the ranked listings, or the exception escaping the
block) and the post-call state of the `cars` the caller passed in: in the
heuristic branch with a returned text every analyzed listing — aliased by
`analyzed_cars` — has received a `rank_score` key by the time the block
ends. -/
def rankCarsTry (llmR : List Listing → Prefs → Except Unit String)
    (prefs : Prefs) (cars : List Listing) :
    Except Unit (List Listing) × List Listing :=
  let analyzed := analyzedOf cars
  if analyzed.length ≤ 1 then (.ok analyzed, cars)
  else if 10 < analyzed.length then
    match llmR (analyzed.take 30) prefs with
    | .error e => (.error e, cars)
    | .ok t =>
      let text := t.data
      let scored := analyzed.map (setScore text)
      (.ok (pySorted rankLtB rankEqB scored),
        cars.map (fun c => if pyTruthyStr c.analysis then setScore text c else c))
  else
    (sortByPriceExc analyzed, cars)

/-- `CarAnalyzer._rank_cars` (lines 86-151): the `try:` block above, with
the `except:` handler falling back to
`sorted(cars, key=lambda x: x.get('price', float('inf')))` over the
original input listings; an exception raised by the fallback sort itself
escapes the method. -/
def rankCarsFull (llmR : List Listing → Prefs → Except Unit String) (prefs : Prefs)
    (cars : List Listing) : Except Unit (List Listing) × List Listing :=
  match rankCarsTry llmR prefs cars with
  | (.ok r, post) => (.ok r, post)
  | (.error _, post) => (sortByPriceExc cars, post)

/-- The value `_rank_cars` returns (or the exception it raises). -/
def rankCarsResult (llmR : List Listing → Prefs → Except Unit String) (prefs : Prefs)
    (cars : List Listing) : Except Unit (List Listing) :=
  (rankCarsFull llmR prefs cars).1

/-- The state of the caller's listing collection after `_rank_cars`. -/
def rankCarsPost (llmR : List Listing → Prefs → Except Unit String) (prefs : Prefs)
    (cars : List Listing) : List Listing :=
  (rankCarsFull llmR prefs cars).2

/-! ### The Analysis Stage: `CarAnalyzer._analyze_cars` -/

/-- Observable outcome of `_analyze_cars`: the listings after the loop,
the `update_car_analysis` store writes issued (in order, keyed by listing
id), and the listings for which the completion capability was invoked. -/
structure AnalyzeOut where
  cars : List Listing
  dbWrites : List (Int × String)
  llmCalls : List Listing
deriving DecidableEq, Repr

/-- `CarAnalyzer._analyze_cars` (lines 57-84).  `llmA` gives the text
that `self.llm_service.analyze_car` returns when it returns normally (a
raising call is caught by the per-listing handler at line 83, which only
skips that listing, so the claims about this stage condition on returned
texts; `Database.update_car_analysis` catches its own errors and returns
a boolean).  A listing whose `analysis` is truthy is skipped; otherwise
the completion result — whatever it is, empty included — is written to
the store and into the listing's `analysis` field. -/
def analyzeCars (llmA : Listing → Prefs → String) (prefs : Prefs) :
    List Listing → AnalyzeOut
  | [] => ⟨[], [], []⟩
  | c :: rest =>
    if pyTruthyStr c.analysis then
      let tail := analyzeCars llmA prefs rest
      ⟨c :: tail.cars, tail.dbWrites, tail.llmCalls⟩
    else
      let a := llmA c prefs
      let tail := analyzeCars llmA prefs rest
      ⟨{ c with analysis := some a } :: tail.cars,
        (c.id, a) :: tail.dbWrites, c :: tail.llmCalls⟩

/-! ### The completion client: `src/llm_service.py` -/

/-- The `config` dictionary handed to `LLMService` (string-valued keys
`provider`, `api_key`, `model`; `none` = key absent). -/
structure LLMConfig where
  provider : Option String := none
  api_key : Option String := none
  model : Option String := none
deriving DecidableEq, Repr

/-- An initialized provider (`DeepSeekProvider`, `OpenAIProvider` or
`AnthropicProvider`), carrying its key and model string. -/
inductive Provider
  | deepseek (key model : String)
  | openai (key model : String)
  | anthropic (key model : String)
deriving DecidableEq, Repr

/-- Python `str.lower()` (character-wise; the config values in play are
ASCII). -/
def pyLower (s : String) : String :=
  String.mk (s.data.map Char.toLower)

/-- `LLMService._initialize_provider` (lines 230-256): no or empty API key
gives no provider, otherwise the provider selected by the lower-cased
`provider` config value, an unsupported value giving no provider. -/
def initializeProvider (cfg : LLMConfig) : Option Provider :=
  let ptype := pyLower (cfg.provider.getD "deepseek")
  let key := cfg.api_key.getD ""
  if key = "" then none
  else if ptype = "deepseek" then
    some (.deepseek key (cfg.model.getD "deepseek-ai/DeepSeek-V3"))
  else if ptype = "openai" then some (.openai key (cfg.model.getD "gpt-4"))
  else if ptype = "anthropic" then
    some (.anthropic key (cfg.model.getD "claude-3-opus-20240229"))
  else none

/-- One entry of a parsed `choices` (resp. `content`) array: either it
carries the message text at the expected keys
(`['message']['content']` resp. `['text']`), or it is malformed and the
extraction subscript raises a KeyError/TypeError. -/
inductive ChoiceEntry
  | wellFormed (text : String)
  | malformed
deriving DecidableEq, Repr

/-- What one upstream HTTP round-trip of `generate_completion` can come to
(the oracle input of the providers): the request raising
(`requests.exceptions.RequestException`, which `raise_for_status` errors
are), a body that fails to parse as JSON, or a parsed body whose
`choices` (resp. `content`) array holds the listed entries — an absent
key is modelled by the empty array, which the code treats the same
way. -/
inductive HttpOutcome
  | requestError
  | jsonError
  | okJson (choices : List ChoiceEntry)
deriving DecidableEq, Repr

/-- `generate_completion` of the three providers (lines 41-89, 108-151,
170-213, all three identical in result behaviour): request errors and
JSON decode errors are caught and give the empty string (lines 84-89);
an empty (or absent) `choices` array gives the empty string (line 82);
a non-empty `choices` array is subscripted (line 79), returning the text
of its first entry or — when that entry is malformed — raising a
KeyError/TypeError that no `except` clause catches, so the exception
escapes.  The prompt only steers the oracle's input, not the control
flow, so it is not a parameter here. -/
def generateCompletion (outcome : HttpOutcome) : Except Unit String :=
  match outcome with
  | .requestError => .ok ""
  | .jsonError => .ok ""
  | .okJson [] => .ok ""
  | .okJson (.wellFormed t :: _) => .ok t
  | .okJson (.malformed :: _) => .error ()

/-- `LLMService.analyze_car` (lines 258-277): without an initialized
provider the fixed error text is returned, otherwise the provider's
completion for the analysis prompt — including its possible uncaught
exception. -/
def serviceAnalyzeCar (cfg : LLMConfig) (outcome : HttpOutcome) :
    Except Unit String :=
  match initializeProvider cfg with
  | none => .ok "Error: LLM provider not available"
  | some _ => generateCompletion outcome

/-- `LLMService.rank_cars` (lines 279-298): same shape as
`serviceAnalyzeCar`, over the ranking prompt. -/
def serviceRankCars (cfg : LLMConfig) (outcome : HttpOutcome) :
    Except Unit String :=
  match initializeProvider cfg with
  | none => .ok "Error: LLM provider not available"
  | some _ => generateCompletion outcome

/-! ### The orchestrator: `CarAnalyzer.get_recommendations` -/

/-- The `criteria_str` argument of `get_recommendations` as the JSON
decoder sees it: absent (`None`), present but failing to decode
(`json.JSONDecodeError`), or decoding to an object. -/
inductive CriteriaInput
  | noCriteria
  | malformed (raw : String)
  | wellFormed (c : Prefs)

/-- Criteria parsing of `get_recommendations` (lines 34-39): start from
`{}`; a decode failure is logged and leaves `{}`. -/
def parseCriteria : CriteriaInput → Prefs
  | .noCriteria => []
  | .malformed _ => []
  | .wellFormed c => c

/-- `CarAnalyzer.get_recommendations` (lines 22-55).  `db` models
`Database.get_cars` (which catches its own errors and always returns a
list); the two completion oracles model the `LLMService` calls of the two
stages.  An exception escaping `_rank_cars` escapes this method too —
nothing catches it here. -/
def getRecommendations (db : Prefs → Nat → List Listing)
    (llmA : Listing → Prefs → String)
    (llmR : List Listing → Prefs → Except Unit String)
    (ci : CriteriaInput) (limit : Nat) : Except Unit (List Listing) :=
  let criteria := parseCriteria ci
  let cars := db criteria 50
  if cars.isEmpty then .ok []
  else
    let analyzed := analyzeCars llmA criteria cars
    match rankCarsResult llmR criteria analyzed.cars with
    | .ok ranked => .ok (ranked.take limit)
    | .error e => .error e

/-! ### Definitions following the spec's words (for comparison only) -/

/-- Modelled from the spec: "sort ascending by price; listings with
unknown price sort last (treat unknown as +infinity)" — strict key order
of that description. -/
def specPriceLt (a b : Listing) : Bool :=
  match a.price, b.price with
  | some x, some y => decide (x < y)
  | some _, none => true
  | none, _ => false

/-- Modelled from the spec: key equality companion of `specPriceLt`
(two unknown prices are tied). -/
def specPriceEq (a b : Listing) : Bool :=
  match a.price, b.price with
  | some x, some y => decide (x = y)
  | none, none => true
  | _, _ => false

/-- Modelled from the spec: the stable ascending price sort with
unknown-price listings last that the deterministic branch and the
fallback are specified to perform. -/
def specAscPriceSort (xs : List Listing) : List Listing :=
  pySorted specPriceLt specPriceEq xs

/-- Number of occurrences of `needle` in `hay` (all start offsets,
overlap counted). -/
def countSub (needle : List Char) : List Char → Nat
  | [] => if needle.isPrefixOf ([] : List Char) then 1 else 0
  | c :: rest =>
    (if needle.isPrefixOf (c :: rest) then 1 else 0) + countSub needle rest

/-- Modelled from the claim's words: the score with "+10 for each
occurrence of each positive keyword" and "-10 for each occurrence of each
negative keyword" in the 200-character window (as opposed to the code's
per-keyword containment check); same exact `×1000` representation as
`heuristicScore`. -/
def claimScoreOcc (text : List Char) (c : Listing) : Int :=
  match findSub (carIdentifier c).data text with
  | none => 0
  | some p =>
    let window := (text.drop p).take 200
    let pos : Int := (positiveWords.map (fun w => countSub w.data window)).sum
    let neg : Int := (negativeWords.map (fun w => countSub w.data window)).sum
    let posBonus : Int := -(p : Int)
    posBonus + 10000 * pos - 10000 * neg

/-- Strict descending order on the claim's per-occurrence scores. -/
def claimOccLt (text : List Char) (a b : Listing) : Bool :=
  decide (claimScoreOcc text b < claimScoreOcc text a)

/-- Key equality companion of `claimOccLt`. -/
def claimOccEq (text : List Char) (a b : Listing) : Bool :=
  decide (claimScoreOcc text a = claimScoreOcc text b)

/-- Modelled from the claim's words (C2): all analyzed listings sorted
descending by the per-occurrence score, ties in original order. -/
def claimOccSort (text : List Char) (xs : List Listing) : List Listing :=
  pySorted (claimOccLt text) (claimOccEq text) xs

/-- Strict descending order on the heuristic scores themselves (used to
state that sorting by the stored `rank_score` field is the same as
sorting by the score function). -/
def scoreLtB (text : List Char) (a b : Listing) : Bool :=
  decide (heuristicScore text b < heuristicScore text a)

/-- Key equality companion of `scoreLtB`. -/
def scoreEqB (text : List Char) (a b : Listing) : Bool :=
  decide (heuristicScore text a = heuristicScore text b)

/-- Modelled from the amended claim's words (descending stable sort of
the analyzed listings by the per-keyword-containment score computed
directly from the ranking text, rather than by the stored field). -/
def claimKeywordSort (text : List Char) (xs : List Listing) : List Listing :=
  pySorted (scoreLtB text) (scoreEqB text) xs

/-! ### Concrete inputs used by counterexamples and witnesses -/

/-- A minimal listing with the given id, price and analysis. -/
def mkListing (i : Int) (pr : Option Int) (an : Option String) : Listing :=
  { id := i, source := "s", price := pr, analysis := an }

/-- A listing with the given id, year, make and model, a known price and a
non-empty analysis. -/
def mkCarYmm (i : Int) (y : Int) (mk md : String) : Listing :=
  { id := i, source := "s", year := some y, make := some mk, model := some md,
    price := some (1000 + i), analysis := some "a" }

/-- Eleven analyzed listings with strictly descending known prices
(ids 0..10, prices 1200, 1100, ..., 200). -/
def c1Cars : List Listing :=
  (List.range 11).map (fun i => mkListing i (some (1200 - 100 * (i : Int))) (some "a"))

/-- Eleven analyzed listings: a 2020 Honda Civic, a 2019 Toyota Camry and
nine fillers whose identifiers do not occur in the ranking text. -/
def c2Cars : List Listing :=
  mkCarYmm 1 2020 "Honda" "Civic" :: mkCarYmm 2 2019 "Toyota" "Camry" ::
    (List.range 9).map (fun i => mkCarYmm (3 + i) (1980 + (i : Int)) "Mk" "Md")

/-- A ranking text that mentions the Civic at offset 0 with the keyword
good occurring twice in its window, and the Camry at offset 250 with
excellent and best (each once) in its window. -/
def c2Text : String :=
  "2020 Honda Civic good good" ++ String.mk (List.replicate 224 'z') ++
    "2019 Toyota Camry excellent best"

/-- Two analyzed listings, one with price 5000 and one with unknown
(NULL) price. -/
def c3Cars : List Listing :=
  [mkListing 1 (some 5000) (some "a"), mkListing 2 none (some "a")]

/-- A database oracle that returns `c3Cars` for every criteria. -/
def c4Db : Prefs → Nat → List Listing := fun _ _ => c3Cars

/-- One analyzed listing. -/
def c5Cars : List Listing := [mkListing 7 (some 900) (some "a")]

/-- Twelve listings with known distinct prices: one unanalyzed (cheapest)
and eleven analyzed — material for the fallback path, which ranks all of
them. -/
def c5FallCars : List Listing :=
  mkListing 100 (some 50) none ::
    (List.range 11).map
      (fun i => mkListing i (some (1200 - 100 * (i : Int))) (some "a"))

/-- One listing without analysis. -/
def c6Car : Listing := mkListing 1 (some 400) none

/-- An `LLMService` config with no API key. -/
def c7Cfg : LLMConfig := { provider := some "deepseek", api_key := none, model := none }

/-- An `LLMService` config with an API key. -/
def c7CfgKey : LLMConfig := { provider := some "openai", api_key := some "k", model := none }

/-- A listing already carrying a non-empty analysis, next to one
without. -/
def c8Cars : List Listing :=
  [mkListing 1 (some 100) (some "done"), mkListing 2 (some 200) none]

/-- Eleven analyzed listings without rank scores (the heuristic branch
writes one onto each of them). -/
def c9Cars : List Listing :=
  (List.range 11).map (fun i => mkListing i (some (100 + (i : Int))) (some "a"))

/-! ### General lemmas about the sorting model -/

theorem insertOrd_perm (lt : α → α → Bool) (x : α) :
    ∀ l : List α, List.Perm (insertOrd lt x l) (x :: l) := by
  intro l
  induction l with
  | nil => exact List.Perm.refl [x]
  | cons y ys ih =>
    rw [insertOrd]
    by_cases h : lt x y = true
    · rw [if_pos h]
    · rw [if_neg h]
      exact (ih.cons y).trans (List.Perm.swap x y ys)

theorem isort_perm (lt : α → α → Bool) :
    ∀ l : List α, List.Perm (isort lt l) l := by
  intro l
  induction l with
  | nil => exact List.Perm.refl []
  | cons x xs ih =>
    exact (insertOrd_perm lt x (isort lt xs)).trans (ih.cons x)

theorem isort_length (lt : α → α → Bool) (l : List α) :
    (isort lt l).length = l.length :=
  (isort_perm lt l).length_eq

theorem isort_mem (lt : α → α → Bool) (l : List α) (a : α) :
    a ∈ isort lt l ↔ a ∈ l :=
  (isort_perm lt l).mem_iff

theorem withIdx_length (n : Nat) : ∀ l : List α, (withIdx n l).length = l.length := by
  intro l
  induction l generalizing n with
  | nil => rfl
  | cons x xs ih => simp [withIdx, ih]

theorem withIdx_map_snd (n : Nat) : ∀ l : List α, (withIdx n l).map Prod.snd = l := by
  intro l
  induction l generalizing n with
  | nil => rfl
  | cons x xs ih => simp [withIdx, ih]

theorem pySorted_perm (ltK eqK : α → α → Bool) (xs : List α) :
    List.Perm (pySorted ltK eqK xs) xs := by
  have h := (isort_perm
    (fun p q : Nat × α => ltK p.2 q.2 || (eqK p.2 q.2 && decide (p.1 < q.1)))
    (withIdx 0 xs)).map Prod.snd
  rw [withIdx_map_snd] at h
  exact h

theorem pySorted_length (ltK eqK : α → α → Bool) (xs : List α) :
    (pySorted ltK eqK xs).length = xs.length :=
  (pySorted_perm ltK eqK xs).length_eq

theorem pySorted_mem (ltK eqK : α → α → Bool) (xs : List α) (a : α) :
    a ∈ pySorted ltK eqK xs ↔ a ∈ xs :=
  (pySorted_perm ltK eqK xs).mem_iff

/-- Every index in `withIdx n l` is at least `n`. -/
theorem withIdx_fst_ge (n : Nat) :
    ∀ l : List α, ∀ p ∈ withIdx n l, n ≤ p.1 := by
  intro l
  induction l generalizing n with
  | nil => intro p hp; cases hp
  | cons x xs ih =>
    intro p hp
    rcases List.mem_cons.mp hp with hp | hp
    · subst hp; exact Nat.le_refl n
    · exact Nat.le_of_succ_le (ih (n + 1) p hp)

/-- The indices of `withIdx n l` are strictly increasing. -/
theorem withIdx_pairwise_fst_lt (n : Nat) :
    ∀ l : List α, List.Pairwise (fun p q : Nat × α => p.1 < q.1) (withIdx n l) := by
  intro l
  induction l generalizing n with
  | nil => exact List.Pairwise.nil
  | cons x xs ih =>
    refine List.Pairwise.cons ?_ (ih (n + 1))
    intro q hq
    exact Nat.lt_of_lt_of_le (Nat.lt_succ_self n) (withIdx_fst_ge (n + 1) xs q hq)

/-- An insertion sort applied to a list that is already strictly sorted
for its order returns it unchanged. -/
theorem isort_eq_self (lt : α → α → Bool) :
    ∀ l : List α, List.Pairwise (fun a b => lt a b = true) l → isort lt l = l := by
  intro l
  induction l with
  | nil => intro _; rfl
  | cons x xs ih =>
    intro hl
    rcases List.pairwise_cons.mp hl with ⟨hx, hxs⟩
    rw [isort, ih hxs]
    cases xs with
    | nil => rfl
    | cons y ys => simp [insertOrd, hx y (List.mem_cons_self y ys)]

/-- The second component of a decorated element is an element of the
decorated list. -/
theorem withIdx_snd_mem (n : Nat) :
    ∀ l : List α, ∀ p ∈ withIdx n l, p.2 ∈ l := by
  intro l
  induction l generalizing n with
  | nil => intro p hp; cases hp
  | cons x xs ih =>
    intro p hp
    rcases List.mem_cons.mp hp with hp | hp
    · subst hp; exact List.mem_cons_self x xs
    · exact List.mem_cons_of_mem x (ih (n + 1) p hp)

/-- Decorating commutes with mapping on the elements. -/
theorem withIdx_map (f : α → β) (n : Nat) :
    ∀ l : List α, withIdx n (l.map f) = (withIdx n l).map (Prod.map id f) := by
  intro l
  induction l generalizing n with
  | nil => rfl
  | cons x xs ih => simp [withIdx, ih, Prod.map]

/-- Against the empty ranking text every car scores `0`: either the
identifier is not found (score `0`), or — degenerately — it is found at
offset `0` with an empty window, where no keyword occurs. -/
theorem heuristicScore_nil (c : Listing) : heuristicScore [] c = 0 := by
  rw [heuristicScore]
  cases hfind : findSub (carIdentifier c).data [] with
  | none => rfl
  | some p =>
    rw [findSub] at hfind
    by_cases hp : (carIdentifier c).data.isPrefixOf ([] : List Char) = true
    · rw [if_pos hp] at hfind
      cases hfind
      decide
    · rw [if_neg hp] at hfind
      cases hfind

/-- Sorting by descending stored rank score leaves a list alone when
every stored score is the same. -/
theorem pySorted_rank_all_zero (xs : List Listing)
    (hall : ∀ c ∈ xs, c.rankScore = some 0) :
    pySorted rankLtB rankEqB xs = xs := by
  rw [pySorted]
  have hsorted :
      List.Pairwise
        (fun p q : Nat × Listing =>
          (rankLtB p.2 q.2 || (rankEqB p.2 q.2 && decide (p.1 < q.1))) = true)
        (withIdx 0 xs) := by
    refine List.Pairwise.imp_of_mem ?_ (withIdx_pairwise_fst_lt 0 xs)
    intro p q hp hq hlt
    have hps := hall p.2 (withIdx_snd_mem 0 xs p hp)
    have hqs := hall q.2 (withIdx_snd_mem 0 xs q hq)
    simp [rankLtB, rankEqB, hps, hqs, hlt]
  rw [isort_eq_self _ _ hsorted, withIdx_map_snd]

/-- The listing collection after `_analyze_cars`: the analysis field of
every listing that lacked a truthy one is set to whatever the completion
returned — empty string included — and nothing else changes. -/
theorem analyzeCars_cars (llmA : Listing → Prefs → String) (prefs : Prefs) :
    ∀ cars : List Listing,
      (analyzeCars llmA prefs cars).cars =
        cars.map (fun c =>
          if pyTruthyStr c.analysis then c
          else { c with analysis := some (llmA c prefs) }) := by
  intro cars
  induction cars with
  | nil => rfl
  | cons c rest ih =>
    by_cases h : pyTruthyStr c.analysis = true
    · simp [analyzeCars, h, ih]
    · simp [analyzeCars, h, ih]

/-- The store writes of `_analyze_cars`: one `update_car_analysis` per
listing lacking a truthy analysis, carrying the completion result
unconditionally. -/
theorem analyzeCars_dbWrites (llmA : Listing → Prefs → String) (prefs : Prefs) :
    ∀ cars : List Listing,
      (analyzeCars llmA prefs cars).dbWrites =
        (cars.filter (fun c => !pyTruthyStr c.analysis)).map
          (fun c => (c.id, llmA c prefs)) := by
  intro cars
  induction cars with
  | nil => rfl
  | cons c rest ih =>
    by_cases h : pyTruthyStr c.analysis = true
    · simp [analyzeCars, h, ih, List.filter_cons]
    · simp [analyzeCars, h, ih, List.filter_cons]

/-- The completion capability is invoked exactly for the listings lacking
a truthy analysis, in order. -/
theorem analyzeCars_llmCalls (llmA : Listing → Prefs → String) (prefs : Prefs) :
    ∀ cars : List Listing,
      (analyzeCars llmA prefs cars).llmCalls =
        cars.filter (fun c => !pyTruthyStr c.analysis) := by
  intro cars
  induction cars with
  | nil => rfl
  | cons c rest ih =>
    by_cases h : pyTruthyStr c.analysis = true
    · simp [analyzeCars, h, ih, List.filter_cons]
    · simp [analyzeCars, h, ih, List.filter_cons]

/-- Inserting into a list with no inversions (with respect to a strict
order that is asymmetric and transitive) yields a list with no
inversions. -/
theorem insertOrd_pairwise (lt : α → α → Bool)
    (hasym : ∀ a b, lt a b = true → lt b a = false)
    (htrans : ∀ a b c, lt a b = true → lt b c = true → lt a c = true)
    (x : α) :
    ∀ l : List α, List.Pairwise (fun a b => lt b a = false) l →
      List.Pairwise (fun a b => lt b a = false) (insertOrd lt x l) := by
  intro l
  induction l with
  | nil => intro _; exact List.pairwise_singleton _ x
  | cons y ys ih =>
    intro h
    rcases List.pairwise_cons.mp h with ⟨hy, hys⟩
    rw [insertOrd]
    by_cases hxy : lt x y = true
    · rw [if_pos hxy]
      refine List.pairwise_cons.mpr ⟨?_, h⟩
      intro z hz
      rcases List.mem_cons.mp hz with hz | hz
      · rw [hz]; exact hasym x y hxy
      · cases hzx : lt z x with
        | false => rfl
        | true =>
          have : lt z y = true := htrans z x y hzx hxy
          rw [hy z hz] at this
          cases this
    · rw [if_neg hxy]
      refine List.pairwise_cons.mpr ⟨?_, ih hys⟩
      intro z hz
      rcases List.mem_cons.mp ((insertOrd_perm lt x ys).mem_iff.mp hz) with hz | hz
      · subst hz
        exact Bool.eq_false_iff.mpr hxy
      · exact hy z hz
  
/-- Insertion sort produces a list with no inversions when its order is
asymmetric and transitive. -/
theorem isort_pairwise (lt : α → α → Bool)
    (hasym : ∀ a b, lt a b = true → lt b a = false)
    (htrans : ∀ a b c, lt a b = true → lt b c = true → lt a c = true) :
    ∀ l : List α, List.Pairwise (fun a b => lt b a = false) (isort lt l) := by
  intro l
  induction l with
  | nil => exact List.Pairwise.nil
  | cons x xs ih => exact insertOrd_pairwise lt hasym htrans x _ ih

/-- Insertion commutes with mapping when the target order agrees with the
source order through the map. -/
theorem insertOrd_map (ltB : β → β → Bool) (ltA : α → α → Bool) (g : α → β)
    (hc : ∀ a b, ltB (g a) (g b) = ltA a b) (x : α) :
    ∀ l : List α, insertOrd ltB (g x) (l.map g) = (insertOrd ltA x l).map g := by
  intro l
  induction l with
  | nil => rfl
  | cons y ys ih =>
    rw [List.map_cons, insertOrd, insertOrd, hc x y]
    cases h : ltA x y with
    | true => simp
    | false => simp [ih]

/-- Insertion sort commutes with mapping when the target order agrees
with the source order through the map. -/
theorem isort_map (ltB : β → β → Bool) (ltA : α → α → Bool) (g : α → β)
    (hc : ∀ a b, ltB (g a) (g b) = ltA a b) :
    ∀ l : List α, isort ltB (l.map g) = (isort ltA l).map g := by
  intro l
  induction l with
  | nil => rfl
  | cons x xs ih => rw [List.map_cons, isort, isort, ih, insertOrd_map ltB ltA g hc]

/-- A stable sort of a mapped list is the mapped stable sort, when the
map leaves keys (hence key comparisons) unchanged. -/
theorem pySorted_map_compat (ltK eqK : β → β → Bool) (ltKA eqKA : α → α → Bool)
    (f : α → β) (hlt : ∀ a b, ltK (f a) (f b) = ltKA a b)
    (heq : ∀ a b, eqK (f a) (f b) = eqKA a b) (xs : List α) :
    pySorted ltK eqK (xs.map f) = (pySorted ltKA eqKA xs).map f := by
  rw [pySorted, pySorted, withIdx_map]
  have hc : ∀ p q : Nat × α,
      (fun p q : Nat × β => ltK p.2 q.2 || (eqK p.2 q.2 && decide (p.1 < q.1)))
          (Prod.map id f p) (Prod.map id f q) =
        (fun p q : Nat × α => ltKA p.2 q.2 || (eqKA p.2 q.2 && decide (p.1 < q.1)))
          p q := by
    intro p q
    simp [Prod.map, hlt, heq]
  rw [isort_map _ _ (Prod.map id f) hc, List.map_map, List.map_map]
  rfl

/-- If the analyzed sublist already makes the price sort raise, so does
the fallback sort over all original listings (they contain the analyzed
ones). -/
theorem sortByPriceExc_cars_error (cars : List Listing)
    (h2 : 2 ≤ (analyzedOf cars).length)
    (hn : (analyzedOf cars).any (fun c => c.price.isNone) = true) :
    sortByPriceExc cars = .error () := by
  rw [sortByPriceExc]
  have hsub : (analyzedOf cars).length ≤ cars.length :=
    List.length_filter_le _ cars
  rw [if_neg (by omega)]
  rcases List.any_eq_true.mp hn with ⟨c, hc, hcp⟩
  rw [if_pos (List.any_eq_true.mpr ⟨c, List.mem_of_mem_filter hc, hcp⟩)]

/-- The decorated descending-score order is asymmetric. -/
theorem scorePair_asymm (t : List Char) (p q : Nat × Listing)
    (h : (scoreLtB t p.2 q.2 || (scoreEqB t p.2 q.2 && decide (p.1 < q.1))) = true) :
    (scoreLtB t q.2 p.2 || (scoreEqB t q.2 p.2 && decide (q.1 < p.1))) = false := by
  simp only [scoreLtB, scoreEqB] at h ⊢
  simp only [Bool.or_eq_true, Bool.and_eq_true, decide_eq_true_eq] at h
  simp only [Bool.or_eq_false_iff, Bool.and_eq_false_iff, decide_eq_false_iff_not]
  omega

/-- The decorated descending-score order is transitive. -/
theorem scorePair_trans (t : List Char) (p q r : Nat × Listing)
    (h1 : (scoreLtB t p.2 q.2 || (scoreEqB t p.2 q.2 && decide (p.1 < q.1))) = true)
    (h2 : (scoreLtB t q.2 r.2 || (scoreEqB t q.2 r.2 && decide (q.1 < r.1))) = true) :
    (scoreLtB t p.2 r.2 || (scoreEqB t p.2 r.2 && decide (p.1 < r.1))) = true := by
  simp only [scoreLtB, scoreEqB] at h1 h2 ⊢
  simp only [Bool.or_eq_true, Bool.and_eq_true, decide_eq_true_eq] at h1 h2 ⊢
  omega

/-- The spec-worded keyword sort is descending in the heuristic score. -/
theorem claimKeywordSort_sorted (t : List Char) (xs : List Listing) :
    List.Pairwise (fun a b => heuristicScore t b ≤ heuristicScore t a)
      (claimKeywordSort t xs) := by
  have hpw := isort_pairwise
    (fun p q : Nat × Listing =>
      scoreLtB t p.2 q.2 || (scoreEqB t p.2 q.2 && decide (p.1 < q.1)))
    (fun p q => scorePair_asymm t p q) (fun p q r => scorePair_trans t p q r)
    (withIdx 0 xs)
  refine List.Pairwise.map Prod.snd ?_ hpw
  intro p q hpq
  have h1 : scoreLtB t q.2 p.2 = false := (Bool.or_eq_false_iff.mp hpq).1
  rw [scoreLtB] at h1
  have := decide_eq_false_iff_not.mp h1
  omega

set_option maxRecDepth 10000

/-! ### Claim theorems -/

/-- Claim C10: `_analyze_cars` preserves the length and order of the
listing list and modifies no field other than the analysis field of
listings that previously lacked a truthy one; already-analyzed listings
are returned unchanged, and the others differ from their input exactly in
the analysis field, which now holds the completion result. -/
theorem claim_C10_frame (llmA : Listing → Prefs → String) (prefs : Prefs)
    (cars : List Listing) :
    List.Forall₂ (fun c cPost =>
        ({ cPost with analysis := c.analysis } = c) ∧
        (pyTruthyStr c.analysis = true → cPost = c) ∧
        (pyTruthyStr c.analysis = false →
          cPost.analysis = some (llmA c prefs)))
      cars (analyzeCars llmA prefs cars).cars := by
  rw [analyzeCars_cars]
  induction cars with
  | nil => exact List.Forall₂.nil
  | cons c rest ih =>
    rw [List.map_cons]
    refine List.Forall₂.cons ?_ ih
    by_cases h : pyTruthyStr c.analysis = true
    · rw [if_pos h]
      exact ⟨rfl, fun _ => rfl, fun hf => by rw [h] at hf; cases hf⟩
    · rw [if_neg h]
      exact ⟨rfl, fun ht => absurd ht h, fun _ => rfl⟩

/-- Claim C10 witness: the frame property evaluated on a concrete batch
holding one analyzed and one unanalyzed listing. -/
theorem claim_C10_witness :
    List.Forall₂ (fun c cPost =>
        ({ cPost with analysis := c.analysis } = c) ∧
        (pyTruthyStr c.analysis = true → cPost = c) ∧
        (pyTruthyStr c.analysis = false →
          cPost.analysis = some ((fun _ _ => "fresh") c ([] : Prefs))))
      c8Cars (analyzeCars (fun _ _ => "fresh") [] c8Cars).cars :=
  claim_C10_frame (fun _ _ => "fresh") [] c8Cars

/-- Claim C8: a listing already carrying a truthy analysis is never
handed to the completion capability by the Analysis Stage, and comes out
of the stage unchanged at its position. -/
theorem claim_C8_skip (llmA : Listing → Prefs → String) (prefs : Prefs)
    (cars : List Listing) (c : Listing) (hc : pyTruthyStr c.analysis = true) :
    c ∉ (analyzeCars llmA prefs cars).llmCalls ∧
      ∀ i : Nat, cars[i]? = some c →
        (analyzeCars llmA prefs cars).cars[i]? = some c := by
  constructor
  · rw [analyzeCars_llmCalls]
    intro hmem
    have hfalse := (List.mem_filter.mp hmem).2
    rw [hc] at hfalse
    cases hfalse
  · intro i hi
    rw [analyzeCars_cars, List.getElem?_map, hi]
    simp [hc]

/-- Claim C8 witness: the skip property evaluated on a concrete batch at
the already-analyzed listing. -/
theorem claim_C8_witness :
    mkListing 1 (some 100) (some "done") ∉
      (analyzeCars (fun _ _ => "t") [] c8Cars).llmCalls ∧
    (analyzeCars (fun _ _ => "t") [] c8Cars).cars[0]? =
      some (mkListing 1 (some 100) (some "done")) :=
  ⟨(claim_C8_skip (fun _ _ => "t") [] c8Cars
      (mkListing 1 (some 100) (some "done")) (by decide)).1,
   (claim_C8_skip (fun _ _ => "t") [] c8Cars
      (mkListing 1 (some 100) (some "done")) (by decide)).2 0 (by decide)⟩

/-- Claim C6 counterexample: with a completion capability returning the
empty string on a one-listing batch, the Analysis Stage still issues the
store write (with the empty text) and still sets the in-memory analysis
field (to the empty string) — the claim's "stored only when non-empty"
fails on this input. -/
theorem claim_C6_counterexample :
    ((fun _ _ => "") : Listing → Prefs → String) c6Car [] = "" ∧
    (analyzeCars (fun _ _ => "") [] [c6Car]).dbWrites = [(1, "")] ∧
    (analyzeCars (fun _ _ => "") [] [c6Car]).cars =
      [{ c6Car with analysis := some "" }] := by
  exact ⟨rfl, by decide, by decide⟩

/-- Claim C6 (amended): for each listing lacking a truthy analysis the
completion result is stored unconditionally — to the external store and
to the in-memory analysis field — even when it is empty; an empty result
still leaves the listing counting as unanalyzed (empty is falsy), and one
listing's outcome never affects the processing of the others (the output
is a per-listing map/filter of the input). -/
theorem claim_C6_amended (llmA : Listing → Prefs → String) (prefs : Prefs)
    (cars : List Listing) :
    (analyzeCars llmA prefs cars).dbWrites =
      (cars.filter (fun c => !pyTruthyStr c.analysis)).map
        (fun c => (c.id, llmA c prefs)) ∧
    (analyzeCars llmA prefs cars).cars =
      cars.map (fun c =>
        if pyTruthyStr c.analysis then c
        else { c with analysis := some (llmA c prefs) }) ∧
    (analyzeCars llmA prefs cars).llmCalls =
      cars.filter (fun c => !pyTruthyStr c.analysis) ∧
    pyTruthyStr (some "") = false :=
  ⟨analyzeCars_dbWrites llmA prefs cars, analyzeCars_cars llmA prefs cars,
    analyzeCars_llmCalls llmA prefs cars, by decide⟩

/-- Claim C7 counterexample: with no API key configured, the completion
entry points return the fixed non-empty error text, not the empty
string. -/
theorem claim_C7_counterexample :
    c7Cfg.api_key = none ∧
    serviceAnalyzeCar c7Cfg .requestError =
      .ok "Error: LLM provider not available" ∧
    serviceRankCars c7Cfg .requestError =
      .ok "Error: LLM provider not available" ∧
    ("Error: LLM provider not available" : String) ≠ "" := by
  exact ⟨rfl, rfl, rfl, by decide⟩

/-- Claim C7 (amended): an absent or empty API key leaves no provider
and makes both entry points return the fixed non-empty text
"Error: LLM provider not available" — not the empty string; with a
provider initialized, a request error, an unparsable body and an empty
choices array are signalled by returning the empty string; but a parsed
body whose non-empty choices array starts with a malformed entry makes
the extraction subscript raise a KeyError that no except clause catches,
so the exception escapes both analyze_car and rank_cars — the boundary
is not throw-free. -/
theorem claim_C7_amended :
    (∀ cfg : LLMConfig, cfg.api_key.getD "" = "" →
      ∀ o : HttpOutcome,
        serviceAnalyzeCar cfg o = .ok "Error: LLM provider not available" ∧
        serviceRankCars cfg o = .ok "Error: LLM provider not available") ∧
    (∀ cfg : LLMConfig, ∀ o : HttpOutcome, initializeProvider cfg ≠ none →
      (o = .requestError ∨ o = .jsonError ∨ o = .okJson []) →
      serviceAnalyzeCar cfg o = .ok "" ∧ serviceRankCars cfg o = .ok "") ∧
    (∀ cfg : LLMConfig, ∀ rest : List ChoiceEntry,
      initializeProvider cfg ≠ none →
      serviceAnalyzeCar cfg (.okJson (.malformed :: rest)) = .error () ∧
      serviceRankCars cfg (.okJson (.malformed :: rest)) = .error ()) := by
  refine ⟨?_, ?_, ?_⟩
  · intro cfg hkey o
    have hp : initializeProvider cfg = none := by
      rw [initializeProvider]
      simp only [hkey, if_pos]
    rw [serviceAnalyzeCar, serviceRankCars, hp]
    exact ⟨rfl, rfl⟩
  · intro cfg o hp ho
    cases hinit : initializeProvider cfg with
    | none => exact absurd hinit hp
    | some prov =>
      rw [serviceAnalyzeCar, serviceRankCars, hinit]
      rcases ho with rfl | rfl | rfl <;> exact ⟨rfl, rfl⟩
  · intro cfg rest hp
    cases hinit : initializeProvider cfg with
    | none => exact absurd hinit hp
    | some prov =>
      rw [serviceAnalyzeCar, serviceRankCars, hinit]
      exact ⟨rfl, rfl⟩

/-- Claim C7 witness: the amended behaviour evaluated at a keyless
config (error text), at a keyed config with a failing request (empty
string), and at a keyed config whose parsed body has a malformed first
choices entry (the call raises). -/
theorem claim_C7_witness :
    (serviceAnalyzeCar c7Cfg .jsonError =
        .ok "Error: LLM provider not available" ∧
      serviceRankCars c7Cfg .jsonError =
        .ok "Error: LLM provider not available") ∧
    (serviceAnalyzeCar c7CfgKey .requestError = .ok "" ∧
      serviceRankCars c7CfgKey .requestError = .ok "") ∧
    (serviceAnalyzeCar c7CfgKey (.okJson [.malformed]) = .error () ∧
      serviceRankCars c7CfgKey (.okJson [.malformed]) = .error ()) :=
  ⟨claim_C7_amended.1 c7Cfg (by decide) .jsonError,
   claim_C7_amended.2.1 c7CfgKey .requestError (by decide) (Or.inl rfl),
   claim_C7_amended.2.2 c7CfgKey [] (by decide)⟩

/-- Claim C3 (code evaluation at the failing input): on two analyzed
listings of which one has an unknown (NULL) price, the deterministic
branch raises (comparing None with an int), the fallback sort over the
same listings raises again, and the exception escapes `_rank_cars` —
instead of the unknown-price listing sorting last. -/
theorem claim_C3_eval :
    (analyzedOf c3Cars).length = 2 ∧
    (∃ c ∈ c3Cars, c.price = none) ∧
    rankCarsResult (fun _ _ => Except.ok "") [] c3Cars = .error () := by
  refine ⟨by decide, ⟨mkListing 2 none (some "a"), by decide, rfl⟩, by decide⟩

/-- Claim C4 (code evaluation at the failing input): when the store
returns two analyzed candidates of which one has an unknown (NULL) price,
`get_recommendations` lets the ranking TypeError escape its boundary —
both with malformed criteria text and with no criteria. -/
theorem claim_C4_eval :
    getRecommendations c4Db (fun _ _ => "x") (fun _ _ => Except.ok "")
        (.malformed "not a json object") 10 = .error () ∧
    getRecommendations c4Db (fun _ _ => "x") (fun _ _ => Except.ok "")
        .noCriteria 10 = .error () := by
  exact ⟨by decide, by decide⟩

/-- Claim C1 counterexample: eleven analyzed listings with strictly
descending prices and a completion capability returning the empty
string: the ranking result keeps the original order (all heuristic
scores are 0) — it is not the ascending-price sort of the original
listings that the claim requires (compared here on the id sequences, so
the difference is purely one of order). -/
theorem claim_C1_counterexample :
    (rankCarsResult (fun _ _ => Except.ok "") [] c1Cars).map
        (fun l => l.map Listing.id) ≠
      Except.ok ((specAscPriceSort c1Cars).map Listing.id) := by
  decide

/-- Claim C1 (amended): if the completion capability returns the empty
string on a batch with more than 10 analyzed listings, no exception
occurs and no price fallback runs: every listing scores 0, and rank
returns the analyzed listings in their original order, each now carrying
rank score 0. -/
theorem claim_C1_amended (prefs : Prefs) (cars : List Listing)
    (h : 10 < (analyzedOf cars).length) :
    rankCarsResult (fun _ _ => Except.ok "") prefs cars =
      .ok ((analyzedOf cars).map (fun c => { c with rankScore := some 0 })) := by
  have h1 : ¬ ((analyzedOf cars).length ≤ 1) := by omega
  have hset : setScore (("" : String).data) =
      fun c : Listing => { c with rankScore := some 0 } := by
    funext c
    rw [setScore]
    rw [show (("" : String).data) = ([] : List Char) from rfl, heuristicScore_nil]
  simp only [rankCarsResult, rankCarsFull, rankCarsTry, if_neg h1, if_pos h]
  rw [hset]
  rw [pySorted_rank_all_zero]
  intro c hc
  rcases List.mem_map.mp hc with ⟨a, _, rfl⟩
  rfl

/-- Claim C1 witness: the amended behaviour evaluated on eleven analyzed
listings with descending prices. -/
theorem claim_C1_witness :
    10 < (analyzedOf c1Cars).length ∧
    rankCarsResult (fun _ _ => Except.ok "") [] c1Cars =
      .ok ((analyzedOf c1Cars).map (fun c => { c with rankScore := some 0 })) :=
  ⟨by decide, claim_C1_amended [] c1Cars (by decide)⟩

/-- Claim C9 counterexample: on eleven analyzed listings the heuristic
branch writes a rank score onto every one of them, and those scores are
still there after `_rank_cars` returns — the input listings have been
mutated, against the claim's "no listing retains a rank_score". -/
theorem claim_C9_counterexample :
    c9Cars.map (fun c => c.rankScore) = List.replicate 11 none ∧
    (rankCarsPost (fun _ _ => Except.ok "") [] c9Cars).map
        (fun c => c.rankScore) =
      List.replicate 11 (some 0) ∧
    rankCarsPost (fun _ _ => Except.ok "") [] c9Cars ≠ c9Cars := by
  exact ⟨by decide, by decide, by decide⟩

/-- Claim C9 (amended): the Ranking Stage issues no store write and, in
the singleton, deterministic and fallback paths, leaves the input
listings untouched; in the heuristic branch a raising completion call
also leaves them untouched, but when the single completion call on the
first 30 returns a text, the branch sets the rank_score field of every
analyzed listing (to its heuristic score against that text), and these
scores remain on the in-memory listings after rank returns; no other
field is mutated. -/
theorem claim_C9_amended (llmR : List Listing → Prefs → Except Unit String)
    (prefs : Prefs) (cars : List Listing) :
    ((analyzedOf cars).length ≤ 10 → rankCarsPost llmR prefs cars = cars) ∧
    (∀ t : String, 10 < (analyzedOf cars).length →
      llmR ((analyzedOf cars).take 30) prefs = .ok t →
      rankCarsPost llmR prefs cars =
        cars.map (fun c =>
          if pyTruthyStr c.analysis then setScore t.data c else c)) ∧
    (∀ e : Unit, 10 < (analyzedOf cars).length →
      llmR ((analyzedOf cars).take 30) prefs = .error e →
      rankCarsPost llmR prefs cars = cars) := by
  refine ⟨?_, ?_, ?_⟩
  · intro hle
    by_cases h1 : (analyzedOf cars).length ≤ 1
    · simp only [rankCarsPost, rankCarsFull, rankCarsTry, if_pos h1]
    · have h10 : ¬ (10 < (analyzedOf cars).length) := by omega
      simp only [rankCarsPost, rankCarsFull, rankCarsTry, if_neg h1, if_neg h10]
      cases sortByPriceExc (analyzedOf cars) <;> rfl
  · intro t h hok
    have h1 : ¬ ((analyzedOf cars).length ≤ 1) := by omega
    simp only [rankCarsPost, rankCarsFull, rankCarsTry, if_neg h1, if_pos h, hok]
  · intro e h hok
    have h1 : ¬ ((analyzedOf cars).length ≤ 1) := by omega
    simp only [rankCarsPost, rankCarsFull, rankCarsTry, if_neg h1, if_pos h, hok]

/-- Claim C9 witness: the amended frame property evaluated on a
two-analyzed-listing batch (untouched) and on eleven analyzed listings
(scores written). -/
theorem claim_C9_witness :
    rankCarsPost (fun _ _ => Except.ok "") [] c3Cars = c3Cars ∧
    rankCarsPost (fun _ _ => Except.ok "") [] c9Cars =
      c9Cars.map (fun c =>
        if pyTruthyStr c.analysis then setScore ("" : String).data c else c) ∧
    rankCarsPost (fun _ _ => Except.error ()) [] c9Cars = c9Cars :=
  ⟨(claim_C9_amended (fun _ _ => Except.ok "") [] c3Cars).1 (by decide),
   (claim_C9_amended (fun _ _ => Except.ok "") [] c9Cars).2.1 "" (by decide) rfl,
   (claim_C9_amended (fun _ _ => Except.error ()) [] c9Cars).2.2 () (by decide)
     rfl⟩

/-- Claim C2 counterexample: a ranking text in which the keyword good
occurs twice in the window of the first listing.  The claim's
per-occurrence scoring would put that listing (score 20) ahead of the
second (score 19.75); the code's per-keyword containment check scores it
10 and ranks it behind.  The orders differ, so the claim's description of
the output is false on this input (id sequences compared, eleven analyzed
listings). -/
theorem claim_C2_counterexample :
    (rankCarsResult (fun _ _ => Except.ok c2Text) [] c2Cars).map
        (fun l => l.map Listing.id) ≠
      Except.ok ((claimOccSort c2Text.data (analyzedOf c2Cars)).map Listing.id) := by
  decide

/-- Claim C2 (amended): with more than 10 analyzed listings the heuristic
branch uses the completion text obtained once for the first 30 analyzed
listings, and returns all analyzed listings stably sorted descending by
the score "-position/1000, +10 per positive keyword occurring in the
200-character window (at most once per keyword), -10 per negative
keyword occurring there" — stated through the spec-worded sort
`claimKeywordSort`, shown sorted and a permutation of the analyzed
listings. -/
theorem claim_C2_amended (llmR : List Listing → Prefs → Except Unit String)
    (prefs : Prefs) (cars : List Listing) (t : String)
    (h : 10 < (analyzedOf cars).length)
    (hok : llmR ((analyzedOf cars).take 30) prefs = .ok t) :
    rankCarsResult llmR prefs cars =
      .ok ((claimKeywordSort t.data (analyzedOf cars)).map (setScore t.data)) ∧
    List.Pairwise
      (fun a b => heuristicScore t.data b ≤ heuristicScore t.data a)
      (claimKeywordSort t.data (analyzedOf cars)) ∧
    List.Perm (claimKeywordSort t.data (analyzedOf cars)) (analyzedOf cars) := by
  refine ⟨?_, claimKeywordSort_sorted _ _, pySorted_perm _ _ _⟩
  have h1 : ¬ ((analyzedOf cars).length ≤ 1) := by omega
  simp only [rankCarsResult, rankCarsFull, rankCarsTry, if_neg h1, if_pos h, hok]
  rw [claimKeywordSort,
    pySorted_map_compat rankLtB rankEqB (scoreLtB t.data) (scoreEqB t.data)
      (setScore t.data) (fun a b => rfl) (fun a b => rfl)]

/-- Claim C2 witness: the amended description evaluated on the concrete
eleven-listing batch and ranking text. -/
theorem claim_C2_witness :
    rankCarsResult (fun _ _ => Except.ok c2Text) [] c2Cars =
      .ok ((claimKeywordSort c2Text.data (analyzedOf c2Cars)).map
        (setScore c2Text.data)) ∧
    List.Pairwise
      (fun a b => heuristicScore c2Text.data b ≤ heuristicScore c2Text.data a)
      (claimKeywordSort c2Text.data (analyzedOf c2Cars)) ∧
    List.Perm (claimKeywordSort c2Text.data (analyzedOf c2Cars))
      (analyzedOf c2Cars) :=
  claim_C2_amended (fun _ _ => Except.ok c2Text) [] c2Cars c2Text
    (by decide) rfl

/-- Claim C5: when `_rank_cars` returns normally off the `try:` block
(no fallback ran), its output is at most as long as the analyzed sublist
and holds only analyzed listings; when the `except:` fallback produced
the normal return (a raising completion call in the heuristic branch),
the output is the ascending price sort of all originally supplied
listings regardless of analysis state — exactly the exception the claim
makes for the fallback path; zero analyzed listings give the empty
output and a single analyzed listing is returned unchanged (no
completion call, hence no fallback, happens with at most one analyzed
listing). -/
theorem claim_C5_shape (llmR : List Listing → Prefs → Except Unit String)
    (prefs : Prefs) (cars l : List Listing)
    (h : rankCarsResult llmR prefs cars = .ok l) :
    (∀ l0 : List Listing, (rankCarsTry llmR prefs cars).1 = .ok l0 →
        l.length ≤ (analyzedOf cars).length ∧
          ∀ c ∈ l, pyTruthyStr c.analysis = true) ∧
    (∀ e : Unit, (rankCarsTry llmR prefs cars).1 = .error e →
        sortByPriceExc cars = .ok l) ∧
    ((analyzedOf cars).length = 0 → l = []) ∧
    (∀ c0 : Listing, analyzedOf cars = [c0] → l = [c0]) := by
  by_cases h1 : (analyzedOf cars).length ≤ 1
  · have htry : (rankCarsTry llmR prefs cars).1 = .ok (analyzedOf cars) := by
      simp only [rankCarsTry, if_pos h1]
    have hr : rankCarsResult llmR prefs cars = .ok (analyzedOf cars) := by
      simp only [rankCarsResult, rankCarsFull, rankCarsTry, if_pos h1]
    rw [hr] at h
    injection h with hl
    subst hl
    refine ⟨?_, ?_, ?_, ?_⟩
    · intro l0 _
      exact ⟨Nat.le_refl _, fun c hc => (List.mem_filter.mp hc).2⟩
    · intro e he
      rw [htry] at he
      exact Except.noConfusion he
    · intro h0
      exact List.length_eq_zero.mp h0
    · intro c0 hc0
      exact hc0
  · by_cases h2 : 10 < (analyzedOf cars).length
    · cases hllm : llmR ((analyzedOf cars).take 30) prefs with
      | ok t =>
        have htry : (rankCarsTry llmR prefs cars).1 =
            .ok (pySorted rankLtB rankEqB
              ((analyzedOf cars).map (setScore t.data))) := by
          simp only [rankCarsTry, if_neg h1, if_pos h2, hllm]
        have hr : rankCarsResult llmR prefs cars =
            .ok (pySorted rankLtB rankEqB
              ((analyzedOf cars).map (setScore t.data))) := by
          simp only [rankCarsResult, rankCarsFull, rankCarsTry, if_neg h1,
            if_pos h2, hllm]
        rw [hr] at h
        injection h with hl
        subst hl
        refine ⟨?_, ?_, ?_, ?_⟩
        · intro l0 _
          constructor
          · rw [pySorted_length, List.length_map]
          · intro c hc
            rcases List.mem_map.mp ((pySorted_mem _ _ _ c).mp hc) with ⟨a, ha, rfl⟩
            exact (List.mem_filter.mp ha).2
        · intro e he
          rw [htry] at he
          exact Except.noConfusion he
        · intro h0
          exact absurd h0 (by omega)
        · intro c0 hc0
          have hlen : (analyzedOf cars).length = 1 := by rw [hc0]; rfl
          exact absurd hlen (by omega)
      | error e0 =>
        have htry : (rankCarsTry llmR prefs cars).1 = .error e0 := by
          simp only [rankCarsTry, if_neg h1, if_pos h2, hllm]
        have hr : rankCarsResult llmR prefs cars = sortByPriceExc cars := by
          simp only [rankCarsResult, rankCarsFull, rankCarsTry, if_neg h1,
            if_pos h2, hllm]
        rw [hr] at h
        refine ⟨?_, ?_, ?_, ?_⟩
        · intro l0 hl0
          rw [htry] at hl0
          exact Except.noConfusion hl0
        · intro e _
          exact h
        · intro h0
          exact absurd h0 (by omega)
        · intro c0 hc0
          have hlen : (analyzedOf cars).length = 1 := by rw [hc0]; rfl
          exact absurd hlen (by omega)
    · cases hs : sortByPriceExc (analyzedOf cars) with
      | ok r =>
        have htry : (rankCarsTry llmR prefs cars).1 = .ok r := by
          simp only [rankCarsTry, if_neg h1, if_neg h2, hs]
        have hr : rankCarsResult llmR prefs cars = .ok r := by
          simp only [rankCarsResult, rankCarsFull, rankCarsTry, if_neg h1,
            if_neg h2, hs]
        rw [hr] at h
        injection h with hl
        subst hl
        have hs2 := hs
        rw [sortByPriceExc, if_neg h1] at hs2
        by_cases hn : (analyzedOf cars).any (fun c => c.price.isNone) = true
        · rw [if_pos hn] at hs2
          exact absurd hs2 (by simp)
        · rw [if_neg hn] at hs2
          injection hs2 with hreq
          subst hreq
          refine ⟨?_, ?_, ?_, ?_⟩
          · intro l0 _
            constructor
            · rw [pySorted_length]
            · intro c hc
              exact (List.mem_filter.mp ((pySorted_mem _ _ _ c).mp hc)).2
          · intro e he
            rw [htry] at he
            exact Except.noConfusion he
          · intro h0
            exact absurd h0 (by omega)
          · intro c0 hc0
            have hlen : (analyzedOf cars).length = 1 := by rw [hc0]; rfl
            exact absurd hlen (by omega)
      | error e0 =>
        have h2b : 2 ≤ (analyzedOf cars).length := by omega
        have hs2 := hs
        rw [sortByPriceExc, if_neg h1] at hs2
        by_cases hn : (analyzedOf cars).any (fun c => c.price.isNone) = true
        · have hcars := sortByPriceExc_cars_error cars h2b hn
          have hr : rankCarsResult llmR prefs cars = .error () := by
            simp only [rankCarsResult, rankCarsFull, rankCarsTry, if_neg h1,
              if_neg h2, hs, hcars]
          rw [hr] at h
          exact Except.noConfusion h
        · rw [if_neg hn] at hs2
          exact absurd hs2 (by simp)

/-- Claim C5 witness: the shape property evaluated at the
single-analyzed-listing batch (returned unchanged off the try block),
and at a twelve-listing batch — eleven analyzed, one unanalyzed, all
prices known — with a raising completion call, where the fallback
returns the ascending price sort of all original listings. -/
theorem claim_C5_witness :
    rankCarsResult (fun _ _ => Except.ok "") [] c5Cars = .ok c5Cars ∧
    c5Cars.length ≤ (analyzedOf c5Cars).length ∧
    c5Cars = [mkListing 7 (some 900) (some "a")] ∧
    sortByPriceExc c5FallCars = .ok (pySorted priceLtB priceEqB c5FallCars) :=
  ⟨by decide,
   ((claim_C5_shape (fun _ _ => Except.ok "") [] c5Cars c5Cars (by decide)).1
     c5Cars (by decide)).1,
   (claim_C5_shape (fun _ _ => Except.ok "") [] c5Cars c5Cars (by decide)).2.2.2
     (mkListing 7 (some 900) (some "a")) (by decide),
   (claim_C5_shape (fun _ _ => Except.error ()) [] c5FallCars
       (pySorted priceLtB priceEqB c5FallCars) (by decide)).2.1 () (by decide)⟩
